import Mathlib

/-
Shallow embedding of the CHIP-8 emulator core (chip8.cpp): the Chip8 class
state, its constructor, loadROM, fetchOpcode, executeOpcode, emulateCycle and
setKeyState.  Machine integers are modelled as Nat with explicit reduction:
uint8 storage is read back modulo 256, uint16 storage modulo 65536; values are
reduced at the points where the C++ types force a truncation.  Arrays indexed
with unchecked C++ subscripts are modelled as total functions Nat -> Nat, so
that the literal index arithmetic of the source is preserved (an out-of-range
C++ access corresponds to reading or writing the function outside the array's
real domain).  The process-wide rand() source is modelled as an injected
stream randSeq consumed at index randIdx.
-/

namespace Chip8

/-- Pointwise update of a Nat-indexed store, modelling an array element
assignment a[i] = v. -/
def upd (f : Nat → Nat) (a v : Nat) : Nat → Nat :=
  fun b => if b = a then v else f b

/-- The architectural state of the Chip8 class: memory, V registers, index
register I, program counter, stack with stack pointer, display, keypad,
timers, the redraw flag, and the modelled random stream. -/
structure Machine where
  memory : Nat → Nat
  V : Nat → Nat
  I : Nat
  pc : Nat
  stack : Nat → Nat
  sp : Nat
  display : Nat → Nat
  keypad : Nat → Nat
  delayTimer : Nat
  soundTimer : Nat
  drawFlag : Bool
  randSeq : Nat → Nat
  randIdx : Nat

/-- The 80-byte fontset table from the source. -/
def fontset : List Nat :=
  [0xF0, 0x90, 0x90, 0x90, 0xF0,
   0x20, 0x60, 0x20, 0x20, 0x70,
   0xF0, 0x10, 0xF0, 0x80, 0xF0,
   0xF0, 0x10, 0xF0, 0x10, 0xF0,
   0x90, 0x90, 0xF0, 0x10, 0x10,
   0xF0, 0x80, 0xF0, 0x10, 0xF0,
   0xF0, 0x80, 0xF0, 0x90, 0xF0,
   0xF0, 0x10, 0x20, 0x40, 0x40,
   0xF0, 0x90, 0xF0, 0x90, 0xF0,
   0xF0, 0x90, 0xF0, 0x10, 0xF0,
   0xF0, 0x90, 0xF0, 0x90, 0x90,
   0xE0, 0x90, 0xE0, 0x90, 0xE0,
   0xF0, 0x80, 0x80, 0x80, 0xF0,
   0xE0, 0x90, 0x90, 0x90, 0xE0,
   0xF0, 0x80, 0xF0, 0x80, 0xF0,
   0xF0, 0x80, 0xF0, 0x80, 0x80]

/-- Memory after the constructor: all zero except the fontset copied to
addresses 0x50..0x9F (memory[0x50 + i] = fontset[i]). -/
def initMemory : Nat → Nat :=
  fun a => if 0x50 ≤ a ∧ a < 0x50 + 80 then fontset.getD (a - 0x50) 0 else 0

/-- The Chip8 constructor: everything zeroed, fontset loaded, pc = 0x200,
I = 0, sp = 0.  The rand() stream is the injected parameter. -/
def initMachine (rng : Nat → Nat) : Machine :=
  { memory := initMemory
    V := fun _ => 0
    I := 0
    pc := 0x200
    stack := fun _ => 0
    sp := 0
    display := fun _ => 0
    keypad := fun _ => 0
    delayTimer := 0
    soundTimer := 0
    drawFlag := false
    randSeq := rng
    randIdx := 0 }

/-- A concrete freshly constructed machine (deterministic zero rand stream),
used as the base state of concrete runs. -/
def initMachine0 : Machine := initMachine (fun _ => 0)

/-- Chip8::loadROM on an already-read byte buffer: if the byte count exceeds
MEMORY_SIZE = 4096 the source prints and calls exit(1), modelled as none;
otherwise each byte i is copied to memory[0x200 + i].  Note the source checks
the size against 4096, not against 4096 - 0x200. -/
def loadROM (m : Machine) (rom : List Nat) : Option Machine :=
  if rom.length > 4096 then none
  else some { m with
    memory := (List.range rom.length).foldl
      (fun mem i => upd mem (0x200 + i) (rom.getD i 0 % 256)) m.memory }

/-- A machine with a ROM loaded at 0x200, for concrete runs. -/
def chipWithROM (rom : List Nat) : Machine :=
  (loadROM initMachine0 rom).getD initMachine0

/-- Chip8::fetchOpcode: (memory[pc] << 8) | memory[pc + 1].  Both operands are
bytes, so the shift-or is the big-endian combination b0 * 256 + b1.  There is
no range check on pc in the source. -/
def fetchOpcode (m : Machine) : Nat :=
  m.memory m.pc % 256 * 256 + m.memory (m.pc + 1) % 256

/-- The error kinds named by the design. -/
inductive ChipErr where
  | OutOfBounds
  | CapacityExceeded
  | DecodeError
deriving DecidableEq

/-- Modelled from the spec: the fetch step the design asks for, which fails
with OutOfBounds whenever pc + 1 > 4095 and otherwise returns the big-endian
combination of memory[pc] and memory[pc + 1].  Stated only to be compared
against the source's fetchOpcode, which performs no such check. -/
def fetchSpec (m : Machine) : Except ChipErr Nat :=
  if m.pc + 1 > 4095 then Except.error ChipErr.OutOfBounds
  else Except.ok (m.memory m.pc % 256 * 256 + m.memory (m.pc + 1) % 256)

/-- The row/column iteration domain of the Dxyn draw loop, in the source's
row-major order: rows 0..n-1, and for each row columns 0..7. -/
def drawPairs : Nat → List (Nat × Nat)
  | 0 => []
  | n + 1 => drawPairs n ++ (List.range 8).map (fun c => (n, c))

/-- The linear framebuffer index computed by the draw loop:
(y + row) * DISPLAY_WIDTH + (x + col), with no clipping of any kind. -/
def linIdx (X Y : Nat) (p : Nat × Nat) : Nat :=
  (Y + p.1) * 64 + (X + p.2)

/-- The sprite-bit test of the draw loop: sprite = memory[I + row], then
sprite & (0x80 >> col) as a truth value. -/
def spriteBit (m : Machine) (p : Nat × Nat) : Bool :=
  (m.memory (m.I + p.1) % 256) &&& (0x80 >>> p.2) != 0

/-- One iteration of the Dxyn inner loop body: when the sprite bit is set,
test the current pixel for collision (display[index] == 1 sets VF = 1) and
XOR the pixel (display[index] ^= 1).  The accumulator pairs the display with
the pending VF value. -/
def drawStep (act : Nat × Nat → Bool) (idx : Nat × Nat → Nat)
    (st : (Nat → Nat) × Nat) (p : Nat × Nat) : (Nat → Nat) × Nat :=
  if act p then
    (upd st.1 (idx p) (st.1 (idx p) % 256 ^^^ 1),
     if st.1 (idx p) % 256 = 1 then 1 else st.2)
  else st

/-- The Fx0A key scan: the first index i < 16 with keypad[i] truthy. -/
def firstKey (m : Machine) : Option Nat :=
  (List.range 16).find? (fun i => m.keypad i % 256 != 0)

/-- The 0x0NNN family: 00E0 clears the display, 00EE pops the stack (--sp,
pc = stack[sp], pc += 2); anything else falls through unchanged. -/
def exec0 (op : Nat) (m : Machine) : Machine :=
  if op = 0x00E0 then
    { m with display := fun _ => 0, drawFlag := true, pc := (m.pc + 2) % 65536 }
  else if op = 0x00EE then
    let sp1 := (m.sp + 65535) % 65536
    { m with sp := sp1, pc := (m.stack sp1 % 65536 + 2) % 65536 }
  else m

/-- The 0x8NNN ALU family, dispatching on the low nibble exactly as the inner
switch does.  The flag write to V[0xF] happens in source order, so a
destination or operand register equal to 0xF observes it. -/
def exec8 (op : Nat) (m : Machine) : Machine :=
  let x := op / 256 % 16
  let y := op / 16 % 16
  if op % 16 = 0 then
    { m with V := upd m.V x (m.V y % 256), pc := (m.pc + 2) % 65536 }
  else if op % 16 = 1 then
    { m with V := upd m.V x (m.V x % 256 ||| m.V y % 256), pc := (m.pc + 2) % 65536 }
  else if op % 16 = 2 then
    { m with V := upd m.V x (m.V x % 256 &&& m.V y % 256), pc := (m.pc + 2) % 65536 }
  else if op % 16 = 3 then
    { m with V := upd m.V x (m.V x % 256 ^^^ m.V y % 256), pc := (m.pc + 2) % 65536 }
  else if op % 16 = 4 then
    let sum := m.V x % 256 + m.V y % 256
    let v1 := upd m.V 15 (if sum > 0xFF then 1 else 0)
    { m with V := upd v1 x (sum % 256), pc := (m.pc + 2) % 65536 }
  else if op % 16 = 5 then
    let v1 := upd m.V 15 (if m.V x % 256 > m.V y % 256 then 1 else 0)
    { m with V := upd v1 x ((v1 x % 256 + 256 - v1 y % 256) % 256), pc := (m.pc + 2) % 65536 }
  else if op % 16 = 6 then
    let v1 := upd m.V 15 (m.V x % 256 &&& 1)
    { m with V := upd v1 x (v1 x % 256 / 2), pc := (m.pc + 2) % 65536 }
  else if op % 16 = 7 then
    let v1 := upd m.V 15 (if m.V y % 256 > m.V x % 256 then 1 else 0)
    { m with V := upd v1 x ((v1 y % 256 + 256 - v1 x % 256) % 256), pc := (m.pc + 2) % 65536 }
  else if op % 16 = 14 then
    let v1 := upd m.V 15 ((m.V x % 256 &&& 0x80) / 128)
    { m with V := upd v1 x (v1 x % 256 * 2 % 256), pc := (m.pc + 2) % 65536 }
  else m

/-- The Dxyn row/column loop: latch X = V[x] % 64 and Y = V[y] % 32, start
from the current display and a cleared VF accumulator, and run drawStep over
the n-row domain in source order.  The first component is the final display,
the second the final VF. -/
def drawRes (m : Machine) (x y n : Nat) : (Nat → Nat) × Nat :=
  (drawPairs n).foldl
    (drawStep (spriteBit m) (linIdx (m.V x % 256 % 64) (m.V y % 256 % 32)))
    (m.display, 0)

/-- The Dxyn draw: run the loop, write the collision flag to VF, set the
redraw flag, advance pc. -/
def execD (op : Nat) (m : Machine) : Machine :=
  let x := op / 256 % 16
  let y := op / 16 % 16
  let n := op % 16
  let res := drawRes m x y n
  { m with display := res.1, V := upd m.V 15 res.2, drawFlag := true,
           pc := (m.pc + 2) % 65536 }

/-- The 0xENNN keypad-skip family. -/
def execE (op : Nat) (m : Machine) : Machine :=
  let x := op / 256 % 16
  if op % 256 = 0x9E then
    if m.keypad (m.V x % 256) % 256 ≠ 0 then { m with pc := (m.pc + 4) % 65536 }
    else { m with pc := (m.pc + 2) % 65536 }
  else if op % 256 = 0xA1 then
    if m.keypad (m.V x % 256) % 256 = 0 then { m with pc := (m.pc + 4) % 65536 }
    else { m with pc := (m.pc + 2) % 65536 }
  else m

/-- The 0xFNNN family, dispatching on the low byte.  Fx0A returns with no
state change when no key is pressed.  Fx29 sets I = V[x] * 5 (the source does
not add the 0x50 font base).  Fx55 and Fx65 index memory as I + i and leave I
itself untouched. -/
def execF (op : Nat) (m : Machine) : Machine :=
  let x := op / 256 % 16
  if op % 256 = 0x07 then
    { m with V := upd m.V x (m.delayTimer % 256), pc := (m.pc + 2) % 65536 }
  else if op % 256 = 0x0A then
    match firstKey m with
    | none => m
    | some k => { m with V := upd m.V x k, pc := (m.pc + 2) % 65536 }
  else if op % 256 = 0x15 then
    { m with delayTimer := m.V x % 256, pc := (m.pc + 2) % 65536 }
  else if op % 256 = 0x18 then
    { m with soundTimer := m.V x % 256, pc := (m.pc + 2) % 65536 }
  else if op % 256 = 0x1E then
    { m with I := (m.I + m.V x % 256) % 65536, pc := (m.pc + 2) % 65536 }
  else if op % 256 = 0x29 then
    { m with I := m.V x % 256 * 5, pc := (m.pc + 2) % 65536 }
  else if op % 256 = 0x33 then
    let v := m.V x % 256
    { m with
      memory := upd (upd (upd m.memory m.I (v / 100)) (m.I + 1) (v / 10 % 10)) (m.I + 2) (v % 10),
      pc := (m.pc + 2) % 65536 }
  else if op % 256 = 0x55 then
    { m with
      memory := (List.range (x + 1)).foldl (fun mem i => upd mem (m.I + i) (m.V i % 256)) m.memory,
      pc := (m.pc + 2) % 65536 }
  else if op % 256 = 0x65 then
    { m with
      V := (List.range (x + 1)).foldl (fun v i => upd v i (m.memory (m.I + i) % 256)) m.V,
      pc := (m.pc + 2) % 65536 }
  else m

/-- Chip8::executeOpcode: dispatch on the top nibble of the 16-bit opcode.
Families whose arms all fall into the same shape are written inline; the
larger families are the per-family definitions above.  Every unmatched path
(including the inner-switch defaults) only prints a message in the source and
leaves the state unchanged. -/
def executeOpcode (opcode : Nat) (m : Machine) : Machine :=
  let op := opcode % 65536
  let x := op / 256 % 16
  let y := op / 16 % 16
  let nn := op % 256
  let nnn := op % 4096
  if op / 4096 = 0 then exec0 op m
  else if op / 4096 = 1 then { m with pc := nnn }
  else if op / 4096 = 2 then
    { m with stack := upd m.stack m.sp (m.pc % 65536), sp := (m.sp + 1) % 65536, pc := nnn }
  else if op / 4096 = 3 then
    if m.V x % 256 = nn then { m with pc := (m.pc + 4) % 65536 }
    else { m with pc := (m.pc + 2) % 65536 }
  else if op / 4096 = 4 then
    if m.V x % 256 = nn then { m with pc := (m.pc + 2) % 65536 }
    else { m with pc := (m.pc + 4) % 65536 }
  else if op / 4096 = 5 then
    if m.V x % 256 = m.V y % 256 then { m with pc := (m.pc + 4) % 65536 }
    else { m with pc := (m.pc + 2) % 65536 }
  else if op / 4096 = 6 then
    { m with V := upd m.V x nn, pc := (m.pc + 2) % 65536 }
  else if op / 4096 = 7 then
    { m with V := upd m.V x ((m.V x % 256 + nn) % 256), pc := (m.pc + 2) % 65536 }
  else if op / 4096 = 8 then exec8 op m
  else if op / 4096 = 9 then
    if m.V x % 256 ≠ m.V y % 256 then { m with pc := (m.pc + 4) % 65536 }
    else { m with pc := (m.pc + 2) % 65536 }
  else if op / 4096 = 10 then
    { m with I := nnn, pc := (m.pc + 2) % 65536 }
  else if op / 4096 = 11 then
    { m with pc := (nnn + m.V 0 % 256) % 65536 }
  else if op / 4096 = 12 then
    { m with V := upd m.V x (m.randSeq m.randIdx % 256 &&& nn), randIdx := m.randIdx + 1,
             pc := (m.pc + 2) % 65536 }
  else if op / 4096 = 13 then execD op m
  else if op / 4096 = 14 then execE op m
  else if op / 4096 = 15 then execF op m
  else m

/-- Chip8::emulateCycle: fetch, execute, then decrement each nonzero timer. -/
def emulateCycle (m : Machine) : Machine :=
  let m1 := executeOpcode (fetchOpcode m) m
  let m2 := if m1.delayTimer % 256 > 0 then { m1 with delayTimer := m1.delayTimer % 256 - 1 } else m1
  if m2.soundTimer % 256 > 0 then { m2 with soundTimer := m2.soundTimer % 256 - 1 } else m2

/-- Chip8::setKeyState: silently ignores key indices at or beyond 16. -/
def setKeyState (m : Machine) (key : Nat) (pressed : Bool) : Machine :=
  if key % 256 < 16 then
    { m with keypad := upd m.keypad (key % 256) (if pressed then 1 else 0) }
  else m

/-- Opcodes that match no handled pattern of executeOpcode: the 0x0 family
outside 00E0/00EE and the 0xE family outside 9E/A1 (both fall through with no
message), and the 0x8 family with a low nibble that is neither 0..7 nor E and
the 0xF family outside the nine handled low bytes (whose inner-switch
defaults print a diagnostic).  The outer switch covers every top nibble, so
its own default arm is unreachable. -/
def isUnknownOpcode (opcode : Nat) : Bool :=
  let op := opcode % 65536
  if op / 4096 = 0 then decide (op ≠ 0x00E0 ∧ op ≠ 0x00EE)
  else if op / 4096 = 8 then decide (8 ≤ op % 16 ∧ op % 16 ≠ 14)
  else if op / 4096 = 14 then decide (op % 256 ≠ 0x9E ∧ op % 256 ≠ 0xA1)
  else if op / 4096 = 15 then
    decide (op % 256 ∉ [0x07, 0x0A, 0x15, 0x18, 0x1E, 0x29, 0x33, 0x55, 0x65])
  else false

end Chip8

namespace Chip8

lemma upd_same (f : Nat → Nat) (a v : Nat) : upd f a v a = v := by
  simp [upd]

lemma upd_other (f : Nat → Nat) (a v b : Nat) (h : b ≠ a) : upd f a v b = f b := by
  simp [upd, h]

/-- Concrete machine used by several witnesses: freshly constructed, fed the
two ROM bytes F0 29 (opcode Fx29 with x = 0). -/
def mF29 : Machine := chipWithROM [0xF0, 0x29]

/-- C2: the claim that Fx29 sets I to the font base 0x50 plus Vx times 5 is
right about the intended design, and the code is wrong: the constructor loads
the font table at 0x50, but the Fx29 handler computes I = Vx * 5 with no
0x50 base, so after executing F029 with V0 = 0 the machine has I = 0 while
the glyph for digit 0 sits at 0x50 (whose first byte is 0xF0); address 0 holds
a zero byte.  The code contradicts its own font placement. -/
theorem C2_font_base_missing :
    fetchOpcode mF29 = 0xF029 ∧
    (emulateCycle mF29).I = 0 ∧
    mF29.V 0 = 0 ∧
    0x50 + mF29.V 0 * 5 = 0x50 ∧
    mF29.memory 0x50 = 0xF0 ∧
    mF29.memory 0 = 0 ∧
    (0 : Nat) ≠ 0x50 := by
  decide

/-- C5: the claim states the intended capacity check; the code checks the ROM
size against MEMORY_SIZE = 4096 instead of 4096 - 0x200 = 3584, so a ROM of
3585 bytes is accepted (the claim requires CapacityExceeded) even though its
copy loop's last write lands at address 0x200 + 3584 = 4096, one past the end
of the 4096-byte memory array.  A ROM of exactly 3584 bytes is accepted, as
the claim says. -/
theorem C5_capacity_check_wrong :
    (loadROM initMachine0 (List.replicate 3584 0)).isSome = true ∧
    (loadROM initMachine0 (List.replicate 3585 0)).isSome = true ∧
    3585 > 4096 - 0x200 ∧
    0x200 + (3585 - 1) ≥ 4096 := by
  refine ⟨?_, ?_, by decide, by decide⟩ <;>
  · simp only [loadROM, List.length_replicate]
    norm_num

/-- C10: executing Fx55 or Fx65 leaves the index register I unchanged: the
block copies index memory as I + i without writing I back. -/
theorem C10_block_copy_preserves_I (m : Machine) (a : Nat) :
    (executeOpcode (0xF000 + a % 16 * 256 + 0x55) m).I = m.I ∧
    (executeOpcode (0xF000 + a % 16 * 256 + 0x65) m).I = m.I := by
  have hlt : a % 16 < 16 := Nat.mod_lt _ (by omega)
  constructor
  · have h1 : (0xF000 + a % 16 * 256 + 0x55) % 65536 = 0xF000 + a % 16 * 256 + 0x55 := by omega
    have h2 : (0xF000 + a % 16 * 256 + 0x55) / 4096 = 15 := by omega
    have h3 : (0xF000 + a % 16 * 256 + 0x55) % 256 = 0x55 := by omega
    simp only [executeOpcode, execF, h1, h2, h3]
    norm_num
  · have h1 : (0xF000 + a % 16 * 256 + 0x65) % 65536 = 0xF000 + a % 16 * 256 + 0x65 := by omega
    have h2 : (0xF000 + a % 16 * 256 + 0x65) / 4096 = 15 := by omega
    have h3 : (0xF000 + a % 16 * 256 + 0x65) % 256 = 0x65 := by omega
    simp only [executeOpcode, execF, h1, h2, h3]
    norm_num

/-- C9: executing 4xnn advances pc by 4 exactly when Vx differs from nn and
by 2 when they are equal, matching the tabulated skip semantics. -/
theorem C9_skip_if_ne (m : Machine) (x nn : Nat) (hx : x < 16) (hnn : nn < 256)
    (hpc : m.pc + 4 < 65536) :
    ((executeOpcode (0x4000 + x * 256 + nn) m).pc = m.pc + 4 ↔ m.V x % 256 ≠ nn) ∧
    ((executeOpcode (0x4000 + x * 256 + nn) m).pc = m.pc + 2 ↔ m.V x % 256 = nn) := by
  have h1 : (0x4000 + x * 256 + nn) % 65536 = 0x4000 + x * 256 + nn := by omega
  have h2 : (0x4000 + x * 256 + nn) / 4096 = 4 := by omega
  have hx' : (0x4000 + x * 256 + nn) / 256 % 16 = x := by omega
  have hnn' : (0x4000 + x * 256 + nn) % 256 = nn := by omega
  have hstep : (executeOpcode (0x4000 + x * 256 + nn) m).pc
      = if m.V x % 256 = nn then (m.pc + 2) % 65536 else (m.pc + 4) % 65536 := by
    simp only [executeOpcode, h1, h2, hx', hnn']
    norm_num
    by_cases hv : m.V x % 256 = nn
    · rw [if_pos hv, if_pos hv]
    · rw [if_neg hv, if_neg hv]
  have e2 : (m.pc + 2) % 65536 = m.pc + 2 := Nat.mod_eq_of_lt (by omega)
  have e4 : (m.pc + 4) % 65536 = m.pc + 4 := Nat.mod_eq_of_lt (by omega)
  rw [hstep, e2, e4]
  by_cases hv : m.V x % 256 = nn
  · rw [if_pos hv]
    constructor
    · constructor
      · intro h; omega
      · intro h; exact absurd hv h
    · exact ⟨fun _ => hv, fun _ => rfl⟩
  · rw [if_neg hv]
    constructor
    · exact ⟨fun _ => hv, fun _ => rfl⟩
    · constructor
      · intro h; omega
      · intro h; exact absurd h hv

/-- C9 witness: on a fresh machine (V0 = 0, pc = 0x200), executing 4001
advances pc to 0x204 because V0 differs from 01. -/
theorem C9_witness :
    (0 : Nat) < 16 ∧ (1 : Nat) < 256 ∧ initMachine0.pc + 4 < 65536 ∧
    (((executeOpcode (0x4000 + 0 * 256 + 1) initMachine0).pc = initMachine0.pc + 4 ↔
        initMachine0.V 0 % 256 ≠ 1) ∧
      ((executeOpcode (0x4000 + 0 * 256 + 1) initMachine0).pc = initMachine0.pc + 2 ↔
        initMachine0.V 0 % 256 = 1)) :=
  ⟨by decide, by decide, by decide,
    C9_skip_if_ne initMachine0 0 1 (by decide) (by decide) (by decide)⟩

end Chip8

namespace Chip8

/-- A machine whose loaded ROM is the single unrecognized opcode 8008 (an
0x8-family instruction with low nibble 8, which no inner-switch case
handles). -/
def m3 : Machine := chipWithROM [0x80, 0x08]

/-- C3 counterexample: the claim says an unrecognized opcode advances pc by
2; executing the fetched unknown opcode 8008 leaves pc at 0x200 instead of
advancing it. -/
theorem C3_cex :
    fetchOpcode m3 = 0x8008 ∧
    isUnknownOpcode 0x8008 = true ∧
    (executeOpcode 0x8008 m3).pc = m3.pc ∧
    m3.pc ≠ m3.pc + 2 := by
  decide

/-- C3 amended: executing an opcode that matches no handled pattern leaves
the machine state entirely unchanged: pc does not advance, so the same opcode
is fetched again on the next cycle, and the process does not crash.  Only the
0x8 and 0xF inner-switch defaults print a diagnostic naming the raw opcode
(never the pc, and no structured DecodeError exists); unknown opcodes in the
0x0 and 0xE families fall through with no message at all, since the 0x0 arm
has no else-branch and the 0xE inner switch has no default. -/
theorem C3_unknown_leaves_state (opcode : Nat) (m : Machine)
    (h : isUnknownOpcode opcode = true) :
    executeOpcode opcode m = m := by
  simp only [isUnknownOpcode] at h
  simp only [executeOpcode]
  have hq : opcode % 65536 / 4096 < 16 := by omega
  set q := opcode % 65536 / 4096 with hqdef
  interval_cases q
  · norm_num at h ⊢
    unfold exec0
    rw [if_neg h.1, if_neg h.2]
  · norm_num at h
  · norm_num at h
  · norm_num at h
  · norm_num at h
  · norm_num at h
  · norm_num at h
  · norm_num at h
  · norm_num at h ⊢
    obtain ⟨h1, h2⟩ := h
    simp only [exec8]
    have e0 : ¬opcode % 65536 % 16 = 0 := by omega
    have e1 : ¬opcode % 65536 % 16 = 1 := by omega
    have e2 : ¬opcode % 65536 % 16 = 2 := by omega
    have e3 : ¬opcode % 65536 % 16 = 3 := by omega
    have e4 : ¬opcode % 65536 % 16 = 4 := by omega
    have e5 : ¬opcode % 65536 % 16 = 5 := by omega
    have e6 : ¬opcode % 65536 % 16 = 6 := by omega
    have e7 : ¬opcode % 65536 % 16 = 7 := by omega
    have e14 : ¬opcode % 65536 % 16 = 14 := by omega
    rw [if_neg e0, if_neg e1, if_neg e2, if_neg e3, if_neg e4,
        if_neg e5, if_neg e6, if_neg e7, if_neg e14]
  · norm_num at h
  · norm_num at h
  · norm_num at h
  · norm_num at h
  · norm_num at h
  · norm_num at h ⊢
    obtain ⟨h1, h2⟩ := h
    simp only [execE]
    have e9E : ¬opcode % 65536 % 256 = 158 := by omega
    have eA1 : ¬opcode % 65536 % 256 = 161 := by omega
    rw [if_neg e9E, if_neg eA1]
  · norm_num at h ⊢
    simp only [execF]
    have f07 : ¬opcode % 65536 % 256 = 7 := by omega
    have f0A : ¬opcode % 65536 % 256 = 10 := by omega
    have f15 : ¬opcode % 65536 % 256 = 21 := by omega
    have f18 : ¬opcode % 65536 % 256 = 24 := by omega
    have f1E : ¬opcode % 65536 % 256 = 30 := by omega
    have f29 : ¬opcode % 65536 % 256 = 41 := by omega
    have f33 : ¬opcode % 65536 % 256 = 51 := by omega
    have f55 : ¬opcode % 65536 % 256 = 85 := by omega
    have f65 : ¬opcode % 65536 % 256 = 101 := by omega
    rw [if_neg f07, if_neg f0A, if_neg f15, if_neg f18, if_neg f1E,
        if_neg f29, if_neg f33, if_neg f55, if_neg f65]

/-- C3 witness: the unknown opcode 8008 executed on the concrete machine m3
leaves it untouched. -/
theorem C3_witness :
    isUnknownOpcode 0x8008 = true ∧ executeOpcode 0x8008 m3 = m3 :=
  ⟨by decide, C3_unknown_leaves_state 0x8008 m3 (by decide)⟩

/-- A machine whose ROM is the self-call 2200: every cycle pushes pc and
jumps back to 0x200. -/
def m7 : Machine := chipWithROM [0x22, 0x00]

/-- A machine whose ROM is a bare 00EE return executed with an empty stack. -/
def m7u : Machine := chipWithROM [0x00, 0xEE]

set_option maxRecDepth 40000 in
/-- C7 counterexample: the stack pointer does not stay within [0,16) on
reachable states, and nothing fatal or diagnostic intervenes.  Sixteen
cycles of the self-call ROM drive sp to 16 (outside [0,16)); a seventeenth
cycle silently pushes to stack slot 16 (past the 16-entry array) leaving
sp = 17; and a 00EE with sp = 0 silently wraps the uint16 pointer to
65535. -/
theorem C7_cex :
    m7.sp = 0 ∧
    (Nat.iterate emulateCycle 16 m7).sp = 16 ∧ ¬(16 < 16) ∧
    (Nat.iterate emulateCycle 17 m7).sp = 17 ∧
    m7u.sp = 0 ∧
    (emulateCycle m7u).sp = 65535 := by
  decide

/-- C7 amended: 2nnn stores pc at stack[sp], increments the 16-bit pointer
and jumps to nnn; 00EE decrements the 16-bit pointer (wrapping at 0) and
resumes at the popped address plus 2.  No bound on sp is ever checked, so
overflow past 15 and underflow at 0 proceed silently. -/
theorem C7_push_pop (m : Machine) (a : Nat) :
    ((executeOpcode (0x2000 + a % 4096) m).stack = upd m.stack m.sp (m.pc % 65536) ∧
     (executeOpcode (0x2000 + a % 4096) m).sp = (m.sp + 1) % 65536 ∧
     (executeOpcode (0x2000 + a % 4096) m).pc = a % 4096) ∧
    ((executeOpcode 0x00EE m).sp = (m.sp + 65535) % 65536 ∧
     (executeOpcode 0x00EE m).pc = (m.stack ((m.sp + 65535) % 65536) % 65536 + 2) % 65536) := by
  constructor
  · have h1 : (0x2000 + a % 4096) % 65536 = 0x2000 + a % 4096 := by omega
    have h2 : (0x2000 + a % 4096) / 4096 = 2 := by omega
    have h3 : (0x2000 + a % 4096) % 4096 = a % 4096 := by omega
    simp only [executeOpcode, h1, h2, h3]
    norm_num
  · simp only [executeOpcode, exec0]
    norm_num

end Chip8

namespace Chip8

/-- A machine with V15 = 0xFF and V0 = 0x01, exercising 8xy4 with x = 15. -/
def m8 : Machine :=
  { initMachine0 with V := fun i => if i = 15 then 0xFF else if i = 0 then 1 else 0 }

/-- A machine with V0 = 0x01 and V15 = 0x02, exercising 8xy5 with y = 15. -/
def m8b : Machine :=
  { initMachine0 with V := fun i => if i = 0 then 1 else if i = 15 then 2 else 0 }

/-- C8 counterexample: the claim quantifies over all distinct x, y, but both
halves fail when register 0xF is involved.  With x = 15, y = 0 (V15 = 0xFF,
V0 = 0x01), opcode 8F04 ends with VF = 0, not the claimed 1, because the
final sum write to Vx overwrites the flag.  With x = 0, y = 15 (V0 = 0x01,
V15 = 0x02), opcode 80F5 ends with V0 = 1, not the claimed 0xFF, because the
flag write to VF happens before Vy is read by the subtraction. -/
theorem C8_cex :
    (m8.V 15 = 0xFF ∧ m8.V 0 = 0x01 ∧
      (executeOpcode 0x8F04 m8).V 15 = 0 ∧ (0 : Nat) ≠ 1) ∧
    (m8b.V 0 = 0x01 ∧ m8b.V 15 = 0x02 ∧
      (executeOpcode 0x80F5 m8b).V 0 = 1 ∧ (1 : Nat) ≠ 0xFF) := by
  decide

/-- C8 amended: the claimed post-states hold for all distinct x, y provided
the registers the claim constrains do not collide with the flag register:
for 8xy4 it suffices that x is not 0xF (y = 0xF is fine because the sum is
latched before the flag write); for 8xy5 both x and y must differ from 0xF
(the subtraction reads Vy after the flag write). -/
theorem C8_add_sub_flags (m : Machine) (x y : Nat) (hx : x < 16) (hy : y < 16)
    (_hxy : x ≠ y) :
    (x ≠ 15 → m.V x % 256 = 0xFF → m.V y % 256 = 0x01 →
      (executeOpcode (0x8000 + x * 256 + y * 16 + 4) m).V 15 = 1 ∧
      (executeOpcode (0x8000 + x * 256 + y * 16 + 4) m).V x = 0) ∧
    (x ≠ 15 → y ≠ 15 → m.V x % 256 = 0x01 → m.V y % 256 = 0x02 →
      (executeOpcode (0x8000 + x * 256 + y * 16 + 5) m).V 15 = 0 ∧
      (executeOpcode (0x8000 + x * 256 + y * 16 + 5) m).V x = 0xFF) := by
  constructor
  · intro hx15 hvx hvy
    have h1 : (0x8000 + x * 256 + y * 16 + 4) % 65536 = 0x8000 + x * 256 + y * 16 + 4 := by omega
    have h2 : (0x8000 + x * 256 + y * 16 + 4) / 4096 = 8 := by omega
    have hx' : (0x8000 + x * 256 + y * 16 + 4) / 256 % 16 = x := by omega
    have hy' : (0x8000 + x * 256 + y * 16 + 4) / 16 % 16 = y := by omega
    have hn : (0x8000 + x * 256 + y * 16 + 4) % 16 = 4 := by omega
    simp only [executeOpcode, exec8, h1, h2, hx', hy', hn]
    norm_num
    rw [hvx, hvy]
    norm_num
    constructor
    · rw [upd_other _ _ _ _ (Ne.symm hx15), upd_same]
    · rw [upd_same]
      omega
  · intro hx15 hy15 hvx hvy
    have h1 : (0x8000 + x * 256 + y * 16 + 5) % 65536 = 0x8000 + x * 256 + y * 16 + 5 := by omega
    have h2 : (0x8000 + x * 256 + y * 16 + 5) / 4096 = 8 := by omega
    have hx' : (0x8000 + x * 256 + y * 16 + 5) / 256 % 16 = x := by omega
    have hy' : (0x8000 + x * 256 + y * 16 + 5) / 16 % 16 = y := by omega
    have hn : (0x8000 + x * 256 + y * 16 + 5) % 16 = 5 := by omega
    simp only [executeOpcode, exec8, h1, h2, hx', hy', hn]
    norm_num
    rw [hvx, hvy]
    norm_num
    rw [upd_other _ _ _ _ hx15, upd_other _ _ _ _ hy15, hvx, hvy]
    norm_num
    constructor
    · rw [upd_other _ _ _ _ (Ne.symm hx15), upd_same]
    · rw [upd_same]

/-- A machine with V0 = 0xFF and V1 = 0x01 for the 8xy4 witness. -/
def m8w : Machine :=
  { initMachine0 with V := fun i => if i = 0 then 0xFF else if i = 1 then 1 else 0 }

/-- A machine with V0 = 0x01 and V1 = 0x02 for the 8xy5 witness. -/
def m8w2 : Machine :=
  { initMachine0 with V := fun i => if i = 0 then 1 else if i = 1 then 2 else 0 }

/-- C8 witness: at x = 0, y = 1 the amended claim is realized: 8014 on
V0 = 0xFF, V1 = 0x01 gives VF = 1 and V0 = 0; 8015 on V0 = 0x01, V1 = 0x02
gives VF = 0 and V0 = 0xFF. -/
theorem C8_witness :
    (m8w.V 0 % 256 = 0xFF ∧ m8w.V 1 % 256 = 0x01 ∧
      (executeOpcode (0x8000 + 0 * 256 + 1 * 16 + 4) m8w).V 15 = 1 ∧
      (executeOpcode (0x8000 + 0 * 256 + 1 * 16 + 4) m8w).V 0 = 0) ∧
    (m8w2.V 0 % 256 = 0x01 ∧ m8w2.V 1 % 256 = 0x02 ∧
      (executeOpcode (0x8000 + 0 * 256 + 1 * 16 + 5) m8w2).V 15 = 0 ∧
      (executeOpcode (0x8000 + 0 * 256 + 1 * 16 + 5) m8w2).V 0 = 0xFF) := by
  refine ⟨⟨by decide, by decide, ?_⟩, ⟨by decide, by decide, ?_⟩⟩
  · exact (C8_add_sub_flags m8w 0 1 (by decide) (by decide) (by decide)).1
      (by decide) (by decide) (by decide)
  · exact (C8_add_sub_flags m8w2 0 1 (by decide) (by decide) (by decide)).2
      (by decide) (by decide) (by decide) (by decide)

/-- A machine positioned so that the second fetch byte lies past address
4095. -/
def m6 : Machine := { initMachine0 with pc := 4095 }

/-- C6 counterexample: at pc = 4095 the claim requires fetch to fail with
OutOfBounds, but the source fetch performs the unchecked reads and returns a
value; it does not equal the range-checked fetch of the design. -/
theorem C6_cex : Except.ok (fetchOpcode m6) ≠ fetchSpec m6 := by
  intro h
  rw [show fetchSpec m6 = Except.error ChipErr.OutOfBounds from rfl] at h
  exact Except.noConfusion h

/-- C6 amended: the fetch combines memory[pc] and memory[pc + 1] big-endian
unconditionally; it never reports any error (there is no range check), and
on the in-range side pc + 1 <= 4095 it returns the same value as the checked
fetch of the design.  For pc + 1 > 4095 the C++ reads run past the 4096-byte
array unchecked. -/
theorem C6_fetch_unchecked (m : Machine) :
    (∀ e : ChipErr, Except.ok (fetchOpcode m) ≠ Except.error e) ∧
    (m.pc + 1 ≤ 4095 → Except.ok (fetchOpcode m) = fetchSpec m) := by
  constructor
  · intro e h
    exact Except.noConfusion h
  · intro h
    unfold fetchSpec
    rw [if_neg (by omega)]
    rfl

/-- C6 witness: on the fresh machine (pc = 0x200) the unchecked fetch agrees
with the checked fetch of the design. -/
theorem C6_witness :
    initMachine0.pc + 1 ≤ 4095 ∧
    Except.ok (fetchOpcode initMachine0) = fetchSpec initMachine0 :=
  ⟨by decide, (C6_fetch_unchecked initMachine0).2 (by decide)⟩

end Chip8

namespace Chip8

/-- A machine blocked on Fx0A: ROM bytes F0 0A, no key pressed, both timers
nonzero. -/
def m4 : Machine :=
  { chipWithROM [0xF0, 0x0A] with delayTimer := 5, soundTimer := 3 }

/-- C4 counterexample: during a blocked Fx0A cycle pc indeed stays put, but
the timers are decremented anyway (delay 5 to 4, sound 3 to 2), contradicting
the claim that timers tick only after non-blocked instructions. -/
theorem C4_cex :
    fetchOpcode m4 = 0xF00A ∧
    (List.range 16).all (fun k => m4.keypad k == 0) = true ∧
    (emulateCycle m4).pc = m4.pc ∧
    m4.delayTimer = 5 ∧ (emulateCycle m4).delayTimer = 4 ∧
    m4.soundTimer = 3 ∧ (emulateCycle m4).soundTimer = 2 := by
  decide

/-- C4 amended: when the current instruction is Fx0A and no key is pressed,
the cycle leaves every architectural field unchanged except the delay and
sound timers, which are still decremented (the timer tick runs every cycle,
blocked or not); once some key is pressed, pc advances by 2 in that single
cycle and Vx receives the lowest pressed key index. -/
theorem C4_wait_key (m : Machine) (x : Nat) (hx : x < 16)
    (hop : fetchOpcode m = 0xF000 + x * 256 + 0x0A) :
    (firstKey m = none →
      emulateCycle m = { m with
        delayTimer := if m.delayTimer % 256 > 0 then m.delayTimer % 256 - 1 else m.delayTimer,
        soundTimer := if m.soundTimer % 256 > 0 then m.soundTimer % 256 - 1 else m.soundTimer }) ∧
    (∀ k, firstKey m = some k →
      (emulateCycle m).pc = (m.pc + 2) % 65536 ∧ (emulateCycle m).V x = k) := by
  have h1 : (0xF000 + x * 256 + 0x0A) % 65536 = 0xF000 + x * 256 + 0x0A := by omega
  have h2 : (0xF000 + x * 256 + 0x0A) / 4096 = 15 := by omega
  have h3 : (0xF000 + x * 256 + 0x0A) % 256 = 0x0A := by omega
  have h4 : (0xF000 + x * 256 + 0x0A) / 256 % 16 = x := by omega
  constructor
  · intro hnone
    have hexec : executeOpcode (fetchOpcode m) m = m := by
      rw [hop]
      simp only [executeOpcode, execF, h1, h2, h3, h4]
      norm_num
      rw [hnone]
    simp only [emulateCycle, hexec]
    by_cases hd : m.delayTimer % 256 > 0 <;> by_cases hs : m.soundTimer % 256 > 0 <;>
      simp only [hd, hs, if_pos, if_neg, ite_true, ite_false, gt_iff_lt]
  · intro k hk
    have hexec : executeOpcode (fetchOpcode m) m =
        { m with V := upd m.V x k, pc := (m.pc + 2) % 65536 } := by
      rw [hop]
      simp only [executeOpcode, execF, h1, h2, h3, h4]
      norm_num
      rw [hk]
    simp only [emulateCycle, hexec]
    constructor
    · split_ifs <;> rfl
    · split_ifs <;> (dsimp only; rw [upd_same])

end Chip8

namespace Chip8

/-- C4 witness: the blocked branch realized on the concrete machine m4. -/
theorem C4_witness :
    (0 : Nat) < 16 ∧ fetchOpcode m4 = 0xF000 + 0 * 256 + 0x0A ∧ firstKey m4 = none ∧
    emulateCycle m4 = { m4 with
      delayTimer := if m4.delayTimer % 256 > 0 then m4.delayTimer % 256 - 1 else m4.delayTimer,
      soundTimer := if m4.soundTimer % 256 > 0 then m4.soundTimer % 256 - 1 else m4.soundTimer } :=
  ⟨by decide, by decide, by decide,
    (C4_wait_key m4 0 (by decide) (by decide)).1 (by decide)⟩

lemma mem_drawPairs (n : Nat) (p : Nat × Nat) : p ∈ drawPairs n ↔ p.1 < n ∧ p.2 < 8 := by
  induction n with
  | zero => simp [drawPairs]
  | succ k ih =>
    simp only [drawPairs, List.mem_append, List.mem_map, List.mem_range, ih]
    constructor
    · rintro (⟨h1, h2⟩ | ⟨d, hd, rfl⟩)
      · exact ⟨by omega, h2⟩
      · exact ⟨by omega, hd⟩
    · rintro ⟨h1, h2⟩
      by_cases hk : p.1 = k
      · right
        exact ⟨p.2, h2, by rw [← hk]⟩
      · left
        exact ⟨by omega, h2⟩

lemma drawPairs_pairwise (X Y n : Nat) :
    (drawPairs n).Pairwise (fun p q => linIdx X Y p ≠ linIdx X Y q) := by
  induction n with
  | zero => simp [drawPairs]
  | succ k ih =>
    rw [drawPairs, List.pairwise_append]
    refine ⟨ih, ?_, ?_⟩
    · rw [List.pairwise_map]
      refine List.Pairwise.imp ?_ (List.pairwise_lt_range 8)
      intro u v huv
      simp only [linIdx]
      omega
    · intro p hp q hq
      rw [mem_drawPairs] at hp
      simp only [List.mem_map, List.mem_range] at hq
      obtain ⟨d, hd, rfl⟩ := hq
      simp only [linIdx]
      omega

lemma drawRun_display (act : Nat × Nat → Bool) (idx : Nat × Nat → Nat)
    (l : List (Nat × Nat)) :
    ∀ (d : Nat → Nat) (v j : Nat),
      l.Pairwise (fun p q => idx p ≠ idx q) →
      (l.foldl (drawStep act idx) (d, v)).1 j =
        if ∃ p ∈ l, act p = true ∧ idx p = j then d j % 256 ^^^ 1 else d j := by
  induction l with
  | nil =>
    intro d v j _
    simp
  | cons p t ih =>
    intro d v j hp
    obtain ⟨hhead, htail⟩ := List.pairwise_cons.mp hp
    rw [List.foldl_cons]
    by_cases hact : act p = true
    · rw [show drawStep act idx (d, v) p =
          (upd d (idx p) (d (idx p) % 256 ^^^ 1),
           if d (idx p) % 256 = 1 then 1 else v) from by simp [drawStep, hact]]
      rw [ih _ _ j htail]
      by_cases hex : ∃ q ∈ t, act q = true ∧ idx q = j
      · obtain ⟨q, hq, hqa, hqj⟩ := hex
        have hpj : idx p ≠ j := hqj ▸ hhead q hq
        rw [if_pos ⟨q, hq, hqa, hqj⟩, upd_other _ _ _ _ (Ne.symm hpj),
            if_pos ⟨q, List.mem_cons_of_mem p hq, hqa, hqj⟩]
      · rw [if_neg hex]
        by_cases hpj : idx p = j
        · subst hpj
          rw [upd_same,
              if_pos ((List.exists_mem_cons_iff _ _ _).mpr (Or.inl ⟨hact, rfl⟩))]
        · have hcond : ¬∃ r ∈ p :: t, act r = true ∧ idx r = j := by
            rintro ⟨r, hr, hra, hrj⟩
            rcases List.mem_cons.mp hr with rfl | hrt
            · exact hpj hrj
            · exact hex ⟨r, hrt, hra, hrj⟩
          rw [if_neg hcond, upd_other _ _ _ _ (fun h => hpj h.symm)]
    · rw [show drawStep act idx (d, v) p = (d, v) from by simp [drawStep, hact]]
      rw [ih _ _ j htail]
      by_cases hex : ∃ q ∈ t, act q = true ∧ idx q = j
      · rw [if_pos hex,
            if_pos ((List.exists_mem_cons_iff _ _ _).mpr (Or.inr hex))]
      · have hcond : ¬∃ r ∈ p :: t, act r = true ∧ idx r = j := by
          rintro ⟨r, hr, hra, hrj⟩
          rcases List.mem_cons.mp hr with rfl | hrt
          · exact hact hra
          · exact hex ⟨r, hrt, hra, hrj⟩
        rw [if_neg hex, if_neg hcond]

lemma drawRun_vf (act : Nat × Nat → Bool) (idx : Nat × Nat → Nat)
    (l : List (Nat × Nat)) :
    ∀ (d : Nat → Nat) (v : Nat),
      l.Pairwise (fun p q => idx p ≠ idx q) →
      (l.foldl (drawStep act idx) (d, v)).2 =
        if ∃ p ∈ l, act p = true ∧ d (idx p) % 256 = 1 then 1 else v := by
  induction l with
  | nil =>
    intro d v _
    simp
  | cons p t ih =>
    intro d v hp
    obtain ⟨hhead, htail⟩ := List.pairwise_cons.mp hp
    rw [List.foldl_cons]
    by_cases hact : act p = true
    · rw [show drawStep act idx (d, v) p =
          (upd d (idx p) (d (idx p) % 256 ^^^ 1),
           if d (idx p) % 256 = 1 then 1 else v) from by simp [drawStep, hact]]
      rw [ih _ _ htail]
      have hiff : (∃ q ∈ t, act q = true ∧
            upd d (idx p) (d (idx p) % 256 ^^^ 1) (idx q) % 256 = 1)
          ↔ (∃ q ∈ t, act q = true ∧ d (idx q) % 256 = 1) := by
        constructor
        · rintro ⟨q, hq, hqa, hqv⟩
          refine ⟨q, hq, hqa, ?_⟩
          rwa [upd_other _ _ _ _ (Ne.symm (hhead q hq))] at hqv
        · rintro ⟨q, hq, hqa, hqv⟩
          refine ⟨q, hq, hqa, ?_⟩
          rwa [upd_other _ _ _ _ (Ne.symm (hhead q hq))]
      rw [if_congr hiff rfl rfl]
      by_cases hT : ∃ q ∈ t, act q = true ∧ d (idx q) % 256 = 1
      · rw [if_pos hT,
            if_pos ((List.exists_mem_cons_iff _ _ _).mpr (Or.inr hT))]
      · rw [if_neg hT]
        by_cases hPv : d (idx p) % 256 = 1
        · rw [if_pos hPv,
              if_pos ((List.exists_mem_cons_iff _ _ _).mpr (Or.inl ⟨hact, hPv⟩))]
        · have hcond : ¬∃ r ∈ p :: t, act r = true ∧ d (idx r) % 256 = 1 := by
            rintro ⟨r, hr, hra, hrv⟩
            rcases List.mem_cons.mp hr with rfl | hrt
            · exact hPv hrv
            · exact hT ⟨r, hrt, hra, hrv⟩
          rw [if_neg hPv, if_neg hcond]
    · rw [show drawStep act idx (d, v) p = (d, v) from by simp [drawStep, hact]]
      rw [ih _ _ htail]
      by_cases hT : ∃ q ∈ t, act q = true ∧ d (idx q) % 256 = 1
      · rw [if_pos hT,
            if_pos ((List.exists_mem_cons_iff _ _ _).mpr (Or.inr hT))]
      · have hcond : ¬∃ r ∈ p :: t, act r = true ∧ d (idx r) % 256 = 1 := by
          rintro ⟨r, hr, hra, hrv⟩
          rcases List.mem_cons.mp hr with rfl | hrt
          · exact hact hra
          · exact hT ⟨r, hrt, hra, hrv⟩
        rw [if_neg hT, if_neg hcond]

/-- Some set sprite bit of the Dxyn draw with arguments x, y, n lands at
linear framebuffer index j. -/
def drawsAt (m : Machine) (x y n j : Nat) : Prop :=
  ∃ p ∈ drawPairs n, spriteBit m p = true ∧
    linIdx (m.V x % 256 % 64) (m.V y % 256 % 32) p = j

instance (m : Machine) (x y n j : Nat) : Decidable (drawsAt m x y n j) :=
  List.decidableBEx _ (drawPairs n)

/-- Some set sprite bit of the Dxyn draw with arguments x, y, n lands on a
previously set pixel (the collision condition reported in VF). -/
def collides (m : Machine) (x y n : Nat) : Prop :=
  ∃ p ∈ drawPairs n, spriteBit m p = true ∧
    m.display (linIdx (m.V x % 256 % 64) (m.V y % 256 % 32) p) % 256 = 1

instance (m : Machine) (x y n : Nat) : Decidable (collides m x y n) :=
  List.decidableBEx _ (drawPairs n)

lemma drawRes_display (m : Machine) (x y n j : Nat) :
    (drawRes m x y n).1 j =
      if drawsAt m x y n j then m.display j % 256 ^^^ 1 else m.display j :=
  drawRun_display _ _ _ _ _ _ (drawPairs_pairwise _ _ _)

lemma drawRes_vf (m : Machine) (x y n : Nat) :
    (drawRes m x y n).2 = if collides m x y n then 1 else 0 :=
  drawRun_vf _ _ _ _ _ (drawPairs_pairwise _ _ _)

end Chip8

namespace Chip8

/-- A machine set up to draw the one-row sprite 0xFF at x = 60, y = 0:
V0 = 60, V1 = 0, I = 0x300, memory[0x300] = 0xFF, empty display. -/
def m1 : Machine :=
  { initMachine0 with
    V := fun i => if i = 0 then 60 else 0,
    I := 0x300,
    memory := upd initMachine0.memory 0x300 0xFF }

/-- C1 counterexample: the claim says sprite columns beyond x-coordinate 64
are clipped (not drawn).  Drawing the 8-wide sprite at (60, 0) with D011, the
four rightmost sprite bits fall at x-coordinates 64..67; the claim leaves
every framebuffer cell outside row 0 untouched, but the code XORs them at
linear indices 64..67, which are row 1, columns 0..3: those previously clear
pixels become set. -/
theorem C1_cex :
    m1.V 0 % 64 = 60 ∧ m1.V 1 % 32 = 0 ∧ m1.memory 0x300 = 0xFF ∧
    m1.display 64 = 0 ∧ m1.display 67 = 0 ∧
    (executeOpcode 0xD011 m1).display 64 = 1 ∧
    (executeOpcode 0xD011 m1).display 67 = 1 := by
  decide

/-- C1 amended: executing Dxyn reads the n-row sprite from memory[I..I+n-1]
and XORs each set sprite bit onto the framebuffer at the literal linear index
(Vy mod 32 + row) * 64 + (Vx mod 64 + col); no clipping or wrapping is
performed, so columns past x = 63 spill into the start of the next row and
rows past y = 31 index past the 2048-cell framebuffer (an unchecked
out-of-bounds write in the C++, rendered total by the function-typed display
of this model).  VF is 1 exactly when some previously set pixel is erased and
0 otherwise, every cell at no such linear index is unchanged, the redraw flag
is set, pc advances by 2, and I and memory are untouched. -/
theorem C1_draw_linear (m : Machine) (a b c : Nat) :
    (executeOpcode (0xD000 + a % 16 * 256 + b % 16 * 16 + c % 16) m).drawFlag = true ∧
    (executeOpcode (0xD000 + a % 16 * 256 + b % 16 * 16 + c % 16) m).pc = (m.pc + 2) % 65536 ∧
    (executeOpcode (0xD000 + a % 16 * 256 + b % 16 * 16 + c % 16) m).I = m.I ∧
    (executeOpcode (0xD000 + a % 16 * 256 + b % 16 * 16 + c % 16) m).memory = m.memory ∧
    (∀ j, (executeOpcode (0xD000 + a % 16 * 256 + b % 16 * 16 + c % 16) m).display j =
      if drawsAt m (a % 16) (b % 16) (c % 16) j
      then m.display j % 256 ^^^ 1 else m.display j) ∧
    (∀ i, (executeOpcode (0xD000 + a % 16 * 256 + b % 16 * 16 + c % 16) m).V i =
      if i = 15 then (if collides m (a % 16) (b % 16) (c % 16) then 1 else 0)
      else m.V i) := by
  have h1 : (0xD000 + a % 16 * 256 + b % 16 * 16 + c % 16) % 65536
      = 0xD000 + a % 16 * 256 + b % 16 * 16 + c % 16 := by omega
  have h2 : (0xD000 + a % 16 * 256 + b % 16 * 16 + c % 16) / 4096 = 13 := by omega
  have hx' : (0xD000 + a % 16 * 256 + b % 16 * 16 + c % 16) / 256 % 16 = a % 16 := by omega
  have hy' : (0xD000 + a % 16 * 256 + b % 16 * 16 + c % 16) / 16 % 16 = b % 16 := by omega
  have hn' : (0xD000 + a % 16 * 256 + b % 16 * 16 + c % 16) % 16 = c % 16 := by omega
  have hexec : executeOpcode (0xD000 + a % 16 * 256 + b % 16 * 16 + c % 16) m =
      { m with
        display := (drawRes m (a % 16) (b % 16) (c % 16)).1,
        V := upd m.V 15 (drawRes m (a % 16) (b % 16) (c % 16)).2,
        drawFlag := true,
        pc := (m.pc + 2) % 65536 } := by
    simp only [executeOpcode, execD, h1, h2, hx', hy', hn']
    norm_num
  rw [hexec]
  refine ⟨rfl, rfl, rfl, rfl, ?_, ?_⟩
  · intro j
    exact drawRes_display m (a % 16) (b % 16) (c % 16) j
  · intro i
    by_cases hi : i = 15
    · subst hi
      rw [if_pos rfl]
      show upd m.V 15 (drawRes m (a % 16) (b % 16) (c % 16)).2 15 = _
      rw [upd_same]
      exact drawRes_vf m (a % 16) (b % 16) (c % 16)
    · rw [if_neg hi]
      show upd m.V 15 (drawRes m (a % 16) (b % 16) (c % 16)).2 i = m.V i
      exact upd_other _ _ _ _ hi

end Chip8
